import Mathlib

/-!
# Shallow embedding of the tmon telemetry collector

Definitions translated from the repository sources:
* `src/server/src/tmon/protocol.py` — frame codec (CRC-16/MODBUS, encode, decode, parse_reply)
* `src/server/src/tmon/serial_poller.py` — poll engine (`Poller.poll`, `Poller.poll_all`)
* `src/server/src/tmon/udp_listener.py` — push listener (`UDPListener._process_frame`)
* `src/server/src/tmon/storage.py` — SQLite-backed store (`insert`, `commit`, `fetch`)
* `src/master/src/tmon/poller.py` — historical master-side poller variant

Bytes are modelled as `List Nat` with the byte bound `< 256` carried as an
explicit hypothesis where it matters.  Fallible Python code (raising
`ValueError` / `struct.error`) is modelled with `Except`.
-/

set_option maxRecDepth 4000

deriving instance DecidableEq for Except

namespace Tmon

/-! ## Protocol constants (protocol.py, lines 12-20) -/

def PROTO_START : Nat := 0x01
def PROTO_CMD_POLL : Nat := 0x01
def PROTO_CMD_REPLY : Nat := 0x02
def PROTO_REPLY_PAYLOAD_LEN : Nat := 8
def PROTO_TEMP_INVALID : Nat := 0x7FFF
def PROTO_ADDR_MIN : Nat := 1
def PROTO_ADDR_MAX : Nat := 247

/-- `is_valid_address` (protocol.py line 23): `PROTO_ADDR_MIN <= addr <= PROTO_ADDR_MAX`. -/
def is_valid_address (addr : Nat) : Bool :=
  decide (PROTO_ADDR_MIN ≤ addr) && decide (addr ≤ PROTO_ADDR_MAX)

/-- Decoded protocol frame (protocol.py `Frame` dataclass). -/
structure Frame where
  addr : Nat
  cmd : Nat
  payload : List Nat
deriving DecidableEq, Repr

/-! ## CRC-16/MODBUS (protocol.py, lines 39-54) -/

/-- One shift step of the bitwise CRC loop:
`if crc & 1: crc = (crc >> 1) ^ 0xA001 else crc >>= 1`. -/
def crc16_round (crc : Nat) : Nat :=
  if crc &&& 0x0001 = 1 then (crc >>> 1) ^^^ 0xA001 else crc >>> 1

/-- `for _ in range(8)` applied to `crc16_round`. -/
def crc16_bits : Nat → Nat → Nat
  | crc, 0 => crc
  | crc, k + 1 => crc16_bits (crc16_round crc) k

/-- Processing of one input byte: `crc ^= byte` then eight rounds. -/
def crc16_byte (crc b : Nat) : Nat := crc16_bits (crc ^^^ b) 8

/-- `crc16_modbus` (protocol.py line 39): fold over the input, register starts at 0xFFFF. -/
def crc16_modbus (data : List Nat) : Nat := data.foldl crc16_byte 0xFFFF

/-! ## Encoding (protocol.py, lines 60-77) -/

inductive EncodeError where
  /-- `ValueError("addr must be in range 1-247 ...")` -/
  | invalidAddress
deriving DecidableEq, Repr

/-- `encode_frame` (protocol.py line 60): validate the address, then
`START + ADDR + CMD + LEN + PAYLOAD + CRC_LO + CRC_HI`, with the CRC computed
over `ADDR + CMD + LEN + PAYLOAD` and packed little-endian (`struct.pack("<H", crc)`). -/
def encode_frame (addr cmd : Nat) (payload : List Nat) : Except EncodeError (List Nat) :=
  if ¬ is_valid_address addr then .error .invalidAddress
  else
    let body := addr :: cmd :: payload.length :: payload
    let crc := crc16_modbus body
    .ok (PROTO_START :: body ++ [crc % 256, crc / 256])

/-! ## Decoding (protocol.py, lines 83-135) -/

inductive DecodeError where
  /-- `"frame too short"` -/
  | tooShort
  /-- `"bad START byte"` -/
  | badStart
  /-- `"length mismatch"` -/
  | lengthMismatch
  /-- `"CRC mismatch"` -/
  | badCrc
  /-- `"addr out of range"` -/
  | addrOutOfRange
deriving DecidableEq, Repr

/-- `decode_frame` (protocol.py line 83).  Python slice `data[4:4+n]` is
`(data.drop 4).take n`; `struct.unpack_from("<H", data, off)` is
`data[off] + 256 * data[off+1]`. -/
def decode_frame (data : List Nat) : Except DecodeError Frame :=
  if data.length < 6 then .error .tooShort
  else if data.getD 0 0 ≠ PROTO_START then .error .badStart
  else
    let addr := data.getD 1 0
    let cmd := data.getD 2 0
    let payload_len := data.getD 3 0
    if data.length ≠ 4 + payload_len + 2 then .error .lengthMismatch
    else
      let payload := (data.drop 4).take payload_len
      let crc_received := data.getD (4 + payload_len) 0 + 256 * data.getD (5 + payload_len) 0
      let body := (data.drop 1).take (3 + payload_len)
      let crc_computed := crc16_modbus body
      if crc_received ≠ crc_computed then .error .badCrc
      else if ¬ is_valid_address addr then .error .addrOutOfRange
      else .ok ⟨addr, cmd, payload⟩

/-! ## Reply parsing (protocol.py, lines 138-166) -/

inductive ParseError where
  /-- `"REPLY payload must be 8 bytes"` -/
  | badPayloadLength
deriving DecidableEq, Repr

/-- Two's-complement reading of a 16-bit unsigned value (`struct.unpack("<h", ...)`). -/
def toInt16 (u : Nat) : Int :=
  if u % 65536 < 32768 then ((u % 65536 : Nat) : Int) else ((u % 65536 : Nat) : Int) - 65536

/-- `parse_reply` (protocol.py line 138): reject payloads that are not exactly
8 bytes, then read four little-endian signed 16-bit values at offsets `i*2`;
values equal to `PROTO_TEMP_INVALID` become `none`. -/
def parse_reply (payload : List Nat) : Except ParseError (List (Option Int)) :=
  if payload.length ≠ PROTO_REPLY_PAYLOAD_LEN then .error .badPayloadLength
  else .ok ((List.range 4).map (fun i =>
    let raw := toInt16 (payload.getD (i * 2) 0 + 256 * payload.getD (i * 2 + 1) 0)
    if raw ≠ (PROTO_TEMP_INVALID : Int) then some raw else none))

end Tmon

namespace Tmon

/-- Scenario S1/S2 reply payload: samples 235, 198, invalid, invalid. -/
def demoPayload : List Nat := [0xEB, 0x00, 0xC6, 0x00, 0xFF, 0x7F, 0xFF, 0x7F]

/-- Scenario S2 frame: REPLY, addr=3, the demo payload. -/
def demoReplyFrame : List Nat :=
  [0x01, 0x03, 0x02, 0x08, 0xEB, 0x00, 0xC6, 0x00, 0xFF, 0x7F, 0xFF, 0x7F, 0x90, 0xEB]

/-! ## Poll engine (src/server/src/tmon/serial_poller.py) -/

/-- `Reading` (src/server/src/tmon/reading.py): one validated reply. -/
structure Reading where
  addr : Nat
  temp_0 : Option Int
  temp_1 : Option Int
  temp_2 : Option Int
  temp_3 : Option Int
deriving DecidableEq, Repr

/-- Observable calls made on the storage collaborator. -/
inductive StoreEvent where
  | insert (addr : Nat) (temps : List (Option Int))
  | commit
deriving DecidableEq, Repr

/-- Python exceptions that can propagate out of the master-side poller. -/
inductive PyError where
  | valueError
  | structError
deriving DecidableEq, Repr

/-- Pure model of `Poller.poll` (serial_poller.py lines 51-99) from the moment
`bus.receive()` has returned: the outcome as a function of the requested
address and the received bytes. -/
def pollStep (addr : Nat) (raw : List Nat) : Option Reading :=
  if raw.isEmpty then none
  else match decode_frame raw with
    | .error _ => none
    | .ok reply =>
      if reply.addr ≠ addr then none
      else if reply.cmd ≠ PROTO_CMD_REPLY then none
      else if reply.payload.length ≠ PROTO_REPLY_PAYLOAD_LEN then none
      else match parse_reply reply.payload with
        | .error _ => none
        | .ok temps => some ⟨addr, temps.getD 0 none, temps.getD 1 none,
            temps.getD 2 none, temps.getD 3 none⟩

/-- The storage call a non-absent reading triggers inside `poll_all`. -/
def insertOf (r : Reading) : StoreEvent :=
  .insert r.addr [r.temp_0, r.temp_1, r.temp_2, r.temp_3]

/-- `Poller.poll_all` (serial_poller.py lines 101-122).  The link behaviour is
given by `rx`, the bytes returned by the k-th `receive()` of the cycle.
Returns the trace of storage calls together with the outcome: the collected
readings, or the propagated `encode_frame` ValueError for an invalid
configured address. -/
def pollAllGo (rx : Nat → List Nat) : List Nat → Nat →
    List StoreEvent × Except EncodeError (List Reading)
  | [], _ => ([StoreEvent.commit], .ok [])
  | addr :: rest, k =>
    match encode_frame addr PROTO_CMD_POLL [] with
    | .error e => ([], .error e)
    | .ok _ =>
      match pollStep addr (rx k) with
      | none => pollAllGo rx rest (k + 1)
      | some reading =>
        let next := pollAllGo rx rest (k + 1)
        (insertOf reading :: next.1, next.2.map (fun rs => reading :: rs))

/-- One full `poll_all` cycle over the configured client list. -/
def poll_all (clients : List Nat) (rx : Nat → List Nat) :
    List StoreEvent × Except EncodeError (List Reading) :=
  pollAllGo rx clients 0

/-- The non-absent readings a cycle collects, in polled order. -/
def pollSuccesses (rx : Nat → List Nat) : List Nat → Nat → List Reading
  | [], _ => []
  | addr :: rest, k =>
    match pollStep addr (rx k) with
    | none => pollSuccesses rx rest (k + 1)
    | some r => r :: pollSuccesses rx rest (k + 1)

/-! ## Push listener (src/server/src/tmon/udp_listener.py) -/

/-- `UDPListener._process_frame` (udp_listener.py lines 68-105): decode,
validate cmd and payload length, then `insert` and `commit`.  Returns the
trace of storage calls and the Reading (or `none` on a rejected frame). -/
def processFrame (raw : List Nat) : List StoreEvent × Option Reading :=
  match decode_frame raw with
  | .error _ => ([], none)
  | .ok frame =>
    if frame.cmd ≠ PROTO_CMD_REPLY then ([], none)
    else if frame.payload.length ≠ PROTO_REPLY_PAYLOAD_LEN then ([], none)
    else match parse_reply frame.payload with
      | .error _ => ([], none)
      | .ok temps =>
        ([StoreEvent.insert frame.addr temps, StoreEvent.commit],
         some ⟨frame.addr, temps.getD 0 none, temps.getD 1 none,
           temps.getD 2 none, temps.getD 3 none⟩)

/-! ## Store (src/server/src/tmon/storage.py) -/

/-- One row of the `readings` table. -/
structure StRow where
  id : Nat
  ts : Nat
  addr : Nat
  temps : List (Option Int)
deriving DecidableEq, Repr

inductive StoreError where
  /-- `ValueError("temps must have 4 elements ...")` -/
  | badChannelCount
deriving DecidableEq, Repr

/-- SQLite connection state: rows of already-committed transactions and rows
inserted in the current (uncommitted) transaction. -/
structure Storage where
  committed : List StRow
  pending : List StRow
deriving DecidableEq, Repr

def Storage.empty : Storage := ⟨[], []⟩

/-- All rows visible on the writer's own connection. -/
def Storage.rows (st : Storage) : List StRow := st.committed ++ st.pending

/-- SQLite `INTEGER PRIMARY KEY` auto-assignment: one more than the largest
existing rowid. -/
def Storage.nextId (st : Storage) : Nat := (st.rows.map StRow.id).foldr max 0 + 1

/-- `Storage.insert` (storage.py lines 62-76): reject a temps list that does
not have exactly 4 elements, else append a row; no commit. -/
def Storage.insert (st : Storage) (now addr : Nat) (temps : List (Option Int)) :
    Except StoreError Storage :=
  if temps.length ≠ 4 then .error .badChannelCount
  else .ok ⟨st.committed, st.pending ++ [⟨st.nextId, now, addr, temps⟩]⟩

/-- `Storage.commit` (storage.py lines 83-85). -/
def Storage.commit (st : Storage) : Storage := ⟨st.committed ++ st.pending, []⟩

/-- Insert a row into a list kept in descending id order. -/
def insertDescById (r : StRow) : List StRow → List StRow
  | [] => [r]
  | x :: xs => if x.id ≤ r.id then r :: x :: xs else x :: insertDescById r xs

/-- `ORDER BY id DESC` over a row list. -/
def sortDescById (l : List StRow) : List StRow := l.foldr insertDescById []

/-- `Storage.fetch` (storage.py lines 78-81): newest `count` rows, ordered by
id descending (`SELECT ... ORDER BY id DESC LIMIT ?`). -/
def Storage.fetch (st : Storage) (count : Nat) : List StRow :=
  (sortDescById st.rows).take count

/-- A batch of `insert` calls (ts, addr, temps), left to right. -/
def insertAll (st : Storage) : List (Nat × Nat × List (Option Int)) →
    Except StoreError Storage
  | [] => .ok st
  | (now, addr, temps) :: rest =>
    match st.insert now addr temps with
    | .error e => .error e
    | .ok st' => insertAll st' rest

/-! ## Historical master-side poller (src/master/src/tmon/poller.py) -/

/-- `struct.unpack_from("<h", buf, off)`: fails (struct.error) unless two
bytes are available at `off`. -/
def unpack_from_h (buf : List Nat) (off : Nat) : Except PyError Int :=
  if off + 2 ≤ buf.length then .ok (toInt16 (buf.getD off 0 + 256 * buf.getD (off + 1) 0))
  else .error .structError

/-- Reading dict of the master-side poller (keys addr, status, temp_0..3). -/
structure MReading where
  addr : Nat
  status : Nat
  temps : List (Option Int)
deriving DecidableEq, Repr

/-- `Poller.poll` of master/src/tmon/poller.py (lines 60-131), status-byte
variant, from the moment `bus.receive()` has returned.  The temperature loop
reads int16 values at offsets `1 + i*2`, masking with bit `i` of the status
byte; a struct.error escapes the function. -/
def masterPollStep (addr : Nat) (raw : List Nat) : Except PyError (Option MReading) :=
  if raw.isEmpty then .ok none
  else match decode_frame raw with
    | .error _ => .ok none
    | .ok reply =>
      if reply.addr ≠ addr then .ok none
      else if reply.cmd ≠ PROTO_CMD_REPLY then .ok none
      else if reply.payload.length ≠ PROTO_REPLY_PAYLOAD_LEN then .ok none
      else
        let status := reply.payload.getD 0 0
        match (List.range 4).mapM (fun i =>
          (unpack_from_h reply.payload (1 + i * 2)).map (fun raw_val =>
            if status &&& (1 <<< i) ≠ 0 ∧ raw_val ≠ (PROTO_TEMP_INVALID : Int)
            then some raw_val else none)) with
        | .error e => .error e
        | .ok temps => .ok (some ⟨addr, status, temps⟩)

/-- `Poller.poll_all` of master/src/tmon/poller.py (lines 133-163): inserts
each successful reading, returns the list — and never calls `commit`. -/
def masterPollAllGo (rx : Nat → List Nat) : List Nat → Nat →
    List StoreEvent × Except PyError (List MReading)
  | [], _ => ([], .ok [])
  | addr :: rest, k =>
    match encode_frame addr PROTO_CMD_POLL [] with
    | .error _ => ([], .error .valueError)
    | .ok _ =>
      match masterPollStep addr (rx k) with
      | .error e => ([], .error e)
      | .ok none => masterPollAllGo rx rest (k + 1)
      | .ok (some r) =>
        let next := masterPollAllGo rx rest (k + 1)
        (StoreEvent.insert r.addr [r.temps.getD 0 none, r.temps.getD 1 none,
            r.temps.getD 2 none, r.temps.getD 3 none] :: next.1,
         next.2.map (fun rs => r :: rs))

/-- One master-side `poll_all` cycle. -/
def master_poll_all (slaves : List Nat) (rx : Nat → List Nat) :
    List StoreEvent × Except PyError (List MReading) :=
  masterPollAllGo rx slaves 0

/-! ## Concrete link behaviours used by witnesses -/

/-- A link that always times out (empty receive). -/
def rxEmpty : Nat → List Nat := fun _ => []

/-- A link that always answers with the demo REPLY frame for address 3. -/
def demoRx : Nat → List Nat := fun _ => demoReplyFrame

/-- Temps list decoded from the demo payload. -/
def demoTemps : List (Option Int) := [some 235, some 198, none, none]

/-- Two concrete insert batches for the store scenario. -/
def c8inputs : List (Nat × Nat × List (Option Int)) :=
  [(100, 1, [some 235, some 198, none, none]), (101, 2, [some 10, none, none, none])]

/-- The store after the two inserts of `c8inputs` from empty. -/
def c8store : Storage := (insertAll Storage.empty c8inputs).toOption.getD Storage.empty

end Tmon

namespace Tmon

/-! ## List access helpers -/

theorem getD_append_self (l m : List Nat) (d : Nat) :
    (l ++ m).getD l.length d = m.getD 0 d := by
  rw [List.getD_append_right _ _ _ _ (le_refl _), Nat.sub_self]

theorem getD_append_offset (l m : List Nat) (d k : Nat) :
    (l ++ m).getD (l.length + k) d = m.getD k d := by
  rw [List.getD_append_right _ _ _ _ (Nat.le_add_right _ _), Nat.add_sub_cancel_left]

theorem le16_mod (x y : Nat) (hx : x < 256) : (x + 256 * y) % 256 = x := by
  rw [Nat.add_mul_mod_self_left, Nat.mod_eq_of_lt hx]

theorem le16_div (x y : Nat) (hx : x < 256) : (x + 256 * y) / 256 = y := by
  rw [Nat.add_mul_div_left _ _ (by norm_num : (0:Nat) < 256), Nat.div_eq_of_lt hx,
    Nat.zero_add]

/-! ## Codec round-trip lemmas -/

/-- Decoding a structurally well-formed frame whose trailing two bytes hold the
body CRC little-endian succeeds and recovers the three fields. -/
theorem decode_of_parts (addr cmd lo hi : Nat) (payload : List Nat)
    (ha : is_valid_address addr = true)
    (hcrc : lo + 256 * hi = crc16_modbus (addr :: cmd :: payload.length :: payload)) :
    decode_frame (PROTO_START :: addr :: cmd :: payload.length :: payload ++ [lo, hi])
      = .ok ⟨addr, cmd, payload⟩ := by
  have hlen : (PROTO_START :: addr :: cmd :: payload.length :: payload ++ [lo, hi]).length
      = payload.length + 6 := by simp
  have hE4 : PROTO_START :: addr :: cmd :: payload.length :: payload ++ [lo, hi]
      = ([PROTO_START, addr, cmd, payload.length] ++ payload) ++ [lo, hi] := by simp
  have hgetlo : (PROTO_START :: addr :: cmd :: payload.length :: payload ++ [lo, hi]).getD
      (4 + payload.length) 0 = lo := by
    rw [hE4]
    have h1 : ([PROTO_START, addr, cmd, payload.length] ++ payload).length
        = 4 + payload.length := by simp; omega
    rw [← h1, getD_append_self]
    rfl
  have hgethi : (PROTO_START :: addr :: cmd :: payload.length :: payload ++ [lo, hi]).getD
      (5 + payload.length) 0 = hi := by
    rw [hE4]
    have h1 : (5 + payload.length)
        = ([PROTO_START, addr, cmd, payload.length] ++ payload).length + 1 := by simp; omega
    rw [h1, getD_append_offset]
    rfl
  have htakepay : (payload ++ [lo, hi]).take payload.length = payload := List.take_left _ _
  have hbody : (addr :: cmd :: payload.length :: (payload ++ [lo, hi])).take
      (3 + payload.length) = addr :: cmd :: payload.length :: payload := by
    have hassoc : addr :: cmd :: payload.length :: (payload ++ [lo, hi])
        = ([addr, cmd, payload.length] ++ payload) ++ [lo, hi] := by simp
    rw [hassoc, List.take_left' (by simp; omega)]
    rfl
  have hget1 : (PROTO_START :: addr :: cmd :: payload.length :: payload ++ [lo, hi]).getD 1 0
      = addr := rfl
  have hget2 : (PROTO_START :: addr :: cmd :: payload.length :: payload ++ [lo, hi]).getD 2 0
      = cmd := rfl
  have hget3 : (PROTO_START :: addr :: cmd :: payload.length :: payload ++ [lo, hi]).getD 3 0
      = payload.length := rfl
  have hdrop1 : (PROTO_START :: addr :: cmd :: payload.length :: payload ++ [lo, hi]).drop 1
      = addr :: cmd :: payload.length :: (payload ++ [lo, hi]) := rfl
  have hdrop4 : (PROTO_START :: addr :: cmd :: payload.length :: payload ++ [lo, hi]).drop 4
      = payload ++ [lo, hi] := rfl
  unfold decode_frame
  rw [if_neg (by rw [hlen]; omega)]
  rw [if_neg (by simp [PROTO_START])]
  rw [hget3]
  rw [if_neg (by rw [hlen]; omega)]
  rw [hget1, hget2, hdrop1, hdrop4, hgetlo, hgethi, htakepay, hbody]
  rw [if_neg (by rw [hcrc]; simp)]
  rw [if_neg (by simp [ha])]

theorem is_valid_address_iff (addr : Nat) :
    is_valid_address addr = true ↔ 1 ≤ addr ∧ addr ≤ 247 := by
  simp [is_valid_address, PROTO_ADDR_MIN, PROTO_ADDR_MAX]

/-- `encode_frame` on a valid address, written out as an explicit byte list. -/
theorem encode_frame_ok (addr cmd : Nat) (payload : List Nat)
    (ha : is_valid_address addr = true) :
    encode_frame addr cmd payload
      = .ok (PROTO_START :: addr :: cmd :: payload.length :: payload ++
          [crc16_modbus (addr :: cmd :: payload.length :: payload) % 256,
           crc16_modbus (addr :: cmd :: payload.length :: payload) / 256]) := by
  unfold encode_frame
  rw [if_neg (by simp [ha])]

/-- A successfully decoded byte sequence is recovered bit-exactly by re-encoding
the decoded frame. -/
theorem decode_ok_reencode (data : List Nat) (f : Frame)
    (hbytes : ∀ b ∈ data, b < 256)
    (h : decode_frame data = .ok f) :
    encode_frame f.addr f.cmd f.payload = .ok data := by
  rcases data with _ | ⟨b0, _ | ⟨b1, _ | ⟨b2, _ | ⟨b3, rest⟩⟩⟩⟩
  · exact absurd h (by simp [decode_frame])
  · exact absurd h (by simp [decode_frame])
  · exact absurd h (by simp [decode_frame])
  · exact absurd h (by simp [decode_frame])
  · unfold decode_frame at h
    by_cases hshort : (b0 :: b1 :: b2 :: b3 :: rest).length < 6
    · rw [if_pos hshort] at h; exact absurd h (by simp)
    rw [if_neg hshort] at h
    have e0 : (b0 :: b1 :: b2 :: b3 :: rest).getD 0 0 = b0 := rfl
    have e1 : (b0 :: b1 :: b2 :: b3 :: rest).getD 1 0 = b1 := rfl
    have e2 : (b0 :: b1 :: b2 :: b3 :: rest).getD 2 0 = b2 := rfl
    have e3 : (b0 :: b1 :: b2 :: b3 :: rest).getD 3 0 = b3 := rfl
    have ed1 : (b0 :: b1 :: b2 :: b3 :: rest).drop 1 = b1 :: b2 :: b3 :: rest := rfl
    have ed4 : (b0 :: b1 :: b2 :: b3 :: rest).drop 4 = rest := rfl
    rw [e0, e1, e2, e3, ed1, ed4] at h
    by_cases hstart : b0 ≠ PROTO_START
    · rw [if_pos hstart] at h; exact absurd h (by simp)
    rw [if_neg hstart] at h
    rw [not_ne_iff] at hstart
    by_cases hlm : (b0 :: b1 :: b2 :: b3 :: rest).length ≠ 4 + b3 + 2
    · rw [if_pos hlm] at h; exact absurd h (by simp)
    rw [if_neg hlm] at h
    rw [not_ne_iff] at hlm
    have hrest : rest.length = b3 + 2 := by simp at hlm; omega
    -- locate the two CRC bytes
    have hgetlo : (b0 :: b1 :: b2 :: b3 :: rest).getD (4 + b3) 0 = rest.getD b3 0 := by
      have hsplit : b0 :: b1 :: b2 :: b3 :: rest = [b0, b1, b2, b3] ++ rest := rfl
      have hidx : 4 + b3 = ([b0, b1, b2, b3] : List Nat).length + b3 := by simp
      rw [hsplit, hidx, getD_append_offset]
    have hgethi : (b0 :: b1 :: b2 :: b3 :: rest).getD (5 + b3) 0 = rest.getD (b3 + 1) 0 := by
      have hsplit : b0 :: b1 :: b2 :: b3 :: rest = [b0, b1, b2, b3] ++ rest := rfl
      have hidx : 5 + b3 = ([b0, b1, b2, b3] : List Nat).length + (b3 + 1) := by simp; omega
      rw [hsplit, hidx, getD_append_offset]
    -- the CRC body slice is ADDR, CMD, LEN and the payload slice
    have hbody : (b1 :: b2 :: b3 :: rest).take (3 + b3) = b1 :: b2 :: b3 :: rest.take b3 := by
      have hsplit : b1 :: b2 :: b3 :: rest = [b1, b2, b3] ++ rest := rfl
      rw [hsplit, List.take_append_eq_append_take]
      have h1 : ([b1, b2, b3] : List Nat).take (3 + b3) = [b1, b2, b3] :=
        List.take_of_length_le (by simp)
      have h2 : 3 + b3 - ([b1, b2, b3] : List Nat).length = b3 := by simp
      rw [h1, h2]
      rfl
    rw [hgetlo, hgethi, hbody] at h
    by_cases hcrc : rest.getD b3 0 + 256 * rest.getD (b3 + 1) 0
        ≠ crc16_modbus (b1 :: b2 :: b3 :: rest.take b3)
    · rw [if_pos hcrc] at h; exact absurd h (by simp)
    rw [if_neg hcrc] at h
    rw [not_ne_iff] at hcrc
    by_cases haddr : ¬ is_valid_address b1 = true
    · rw [if_pos haddr] at h; exact absurd h (by simp)
    rw [if_neg haddr] at h
    rw [not_not] at haddr
    -- extract the decoded frame
    rw [Except.ok.injEq] at h
    subst h
    show encode_frame b1 b2 (rest.take b3) = Except.ok (b0 :: b1 :: b2 :: b3 :: rest)
    -- payload slice facts
    have htklen : (rest.take b3).length = b3 := by
      rw [List.length_take]; omega
    have hdropl : (rest.drop b3).length = 2 := by
      rw [List.length_drop]; omega
    obtain ⟨x, y, hxy⟩ := List.length_eq_two.mp hdropl
    have hx : x < 256 := by
      apply hbytes
      have hx1 : x ∈ rest.drop b3 := by rw [hxy]; simp
      have hx2 := List.mem_of_mem_drop hx1
      simp [hx2]
    have hy : y < 256 := by
      apply hbytes
      have hy1 : y ∈ rest.drop b3 := by rw [hxy]; simp
      have hy2 := List.mem_of_mem_drop hy1
      simp [hy2]
    have hrestsplit : rest.take b3 ++ [x, y] = rest := by
      rw [← hxy]; exact List.take_append_drop _ _
    have hgx : rest.getD b3 0 = x := by
      have h1 : (rest.take b3 ++ [x, y]).getD ((rest.take b3).length + 0) 0 = x := by
        rw [getD_append_offset]
        rfl
      rw [htklen, Nat.add_zero, hrestsplit] at h1
      exact h1
    have hgy : rest.getD (b3 + 1) 0 = y := by
      have h1 : (rest.take b3 ++ [x, y]).getD ((rest.take b3).length + 1) 0 = y := by
        rw [getD_append_offset]
        rfl
      rw [htklen, hrestsplit] at h1
      exact h1
    rw [hgx, hgy] at hcrc
    rw [encode_frame_ok _ _ _ haddr, htklen]
    have hmod : crc16_modbus (b1 :: b2 :: b3 :: rest.take b3) % 256 = x := by
      rw [← hcrc]; exact le16_mod x y hx
    have hdiv : crc16_modbus (b1 :: b2 :: b3 :: rest.take b3) / 256 = y := by
      rw [← hcrc]; exact le16_div x y hx
    rw [hmod, hdiv, ← hstart]
    simp only [List.cons_append, hrestsplit]

/-! ## Claim C1 -/

/-- C1: for every address in 1..247, every command byte in {0x01, 0x02} and every
payload of at most 255 bytes, encoding succeeds, the encoded frame has length
6 + |payload|, and decoding it yields exactly the encoded triple. -/
theorem encode_decode_roundtrip (addr cmd : Nat) (payload : List Nat)
    (h1 : 1 ≤ addr) (h2 : addr ≤ 247) (hcmd : cmd = 0x01 ∨ cmd = 0x02)
    (hplen : payload.length ≤ 255) (hbytes : ∀ b ∈ payload, b < 256) :
    ∃ E, encode_frame addr cmd payload = .ok E ∧ E.length = 6 + payload.length ∧
      decode_frame E = .ok ⟨addr, cmd, payload⟩ := by
  have ha : is_valid_address addr = true := (is_valid_address_iff addr).mpr ⟨h1, h2⟩
  refine ⟨_, encode_frame_ok addr cmd payload ha, ?_,
    decode_of_parts addr cmd _ _ payload ha (Nat.mod_add_div _ _)⟩
  simp
  omega

/-- Witness for C1 at addr 3, cmd REPLY, the demo payload. -/
theorem encode_decode_roundtrip_witness :
    ((1:Nat) ≤ 3 ∧ (3:Nat) ≤ 247 ∧ ((2:Nat) = 0x01 ∨ (2:Nat) = 0x02) ∧
      demoPayload.length ≤ 255 ∧ (∀ b ∈ demoPayload, b < 256)) ∧
    (∃ E, encode_frame 3 2 demoPayload = .ok E ∧ E.length = 6 + demoPayload.length ∧
      decode_frame E = .ok ⟨3, 2, demoPayload⟩) :=
  ⟨by decide, encode_decode_roundtrip 3 2 demoPayload (by decide) (by decide)
    (by decide) (by decide) (by decide)⟩

/-! ## Claim C2 -/

/-- C2: the CRC primitive and the encoder are bit-exact on the documented
vectors: CRC(`03 01 00`) = 0x5080, CRC(`03 02 08 EB 00 C6 00 FF 7F FF 7F`) =
0xEB90, CRC of empty input = 0xFFFF, and encode(3, POLL, empty) =
`01 03 01 00 80 50`. -/
theorem crc_and_encode_vectors :
    crc16_modbus [0x03, 0x01, 0x00] = 0x5080 ∧
    crc16_modbus [0x03, 0x02, 0x08, 0xEB, 0x00, 0xC6, 0x00, 0xFF, 0x7F, 0xFF, 0x7F] = 0xEB90 ∧
    crc16_modbus [] = 0xFFFF ∧
    encode_frame 3 0x01 [] = .ok [0x01, 0x03, 0x01, 0x00, 0x80, 0x50] := by
  refine ⟨by decide, by decide, by decide, by decide⟩

/-! ## Claim C3 -/

/-- C3: decode is total and safe — on any byte sequence it either succeeds, and
re-encoding the result reproduces the input bit-exactly, or it fails with one
of the five documented reasons. -/
theorem decode_total_safe (data : List Nat) (hbytes : ∀ b ∈ data, b < 256) :
    (∃ f, decode_frame data = .ok f ∧ encode_frame f.addr f.cmd f.payload = .ok data) ∨
    (∃ e, decode_frame data = .error e ∧
      (e = .tooShort ∨ e = .badStart ∨ e = .lengthMismatch ∨ e = .badCrc ∨
        e = .addrOutOfRange)) := by
  cases hd : decode_frame data with
  | ok f => exact Or.inl ⟨f, rfl, decode_ok_reencode data f hbytes hd⟩
  | error e => exact Or.inr ⟨e, rfl, by cases e <;> simp⟩

/-- Witness for C3 on the concrete demo REPLY frame. -/
theorem decode_total_safe_witness :
    (∀ b ∈ demoReplyFrame, b < 256) ∧
    ((∃ f, decode_frame demoReplyFrame = .ok f ∧
        encode_frame f.addr f.cmd f.payload = .ok demoReplyFrame) ∨
    (∃ e, decode_frame demoReplyFrame = .error e ∧
      (e = .tooShort ∨ e = .badStart ∨ e = .lengthMismatch ∨ e = .badCrc ∨
        e = .addrOutOfRange))) :=
  ⟨by decide, decode_total_safe demoReplyFrame (by decide)⟩

/-! ## Claim C4 -/

/-- C4: the decoder's validation checks are applied in the fixed order
TooShort, BadStart, LengthMismatch, BadCrc, AddrOutOfRange; each failure is
reported exactly when all earlier checks pass and its own check fails, so the
earliest applicable failure always wins. -/
theorem decode_error_order (data : List Nat) :
    (decode_frame data = .error .tooShort ↔ data.length < 6) ∧
    (decode_frame data = .error .badStart ↔
      ¬ data.length < 6 ∧ data.getD 0 0 ≠ PROTO_START) ∧
    (decode_frame data = .error .lengthMismatch ↔
      ¬ data.length < 6 ∧ data.getD 0 0 = PROTO_START ∧
      data.length ≠ 4 + data.getD 3 0 + 2) ∧
    (decode_frame data = .error .badCrc ↔
      ¬ data.length < 6 ∧ data.getD 0 0 = PROTO_START ∧
      data.length = 4 + data.getD 3 0 + 2 ∧
      data.getD (4 + data.getD 3 0) 0 + 256 * data.getD (5 + data.getD 3 0) 0
        ≠ crc16_modbus ((data.drop 1).take (3 + data.getD 3 0))) ∧
    (decode_frame data = .error .addrOutOfRange ↔
      ¬ data.length < 6 ∧ data.getD 0 0 = PROTO_START ∧
      data.length = 4 + data.getD 3 0 + 2 ∧
      data.getD (4 + data.getD 3 0) 0 + 256 * data.getD (5 + data.getD 3 0) 0
        = crc16_modbus ((data.drop 1).take (3 + data.getD 3 0)) ∧
      ¬ (1 ≤ data.getD 1 0 ∧ data.getD 1 0 ≤ 247)) := by
  unfold decode_frame
  by_cases h1 : data.length < 6
  · rw [if_pos h1]
    exact ⟨iff_of_true rfl h1,
      iff_of_false (by simp) (by tauto),
      iff_of_false (by simp) (by tauto),
      iff_of_false (by simp) (by tauto),
      iff_of_false (by simp) (by tauto)⟩
  rw [if_neg h1]
  by_cases h2 : data.getD 0 0 ≠ PROTO_START
  · rw [if_pos h2]
    exact ⟨iff_of_false (by simp) (by tauto),
      iff_of_true rfl ⟨h1, h2⟩,
      iff_of_false (by simp) (by tauto),
      iff_of_false (by simp) (by tauto),
      iff_of_false (by simp) (by tauto)⟩
  rw [if_neg h2]
  rw [not_ne_iff] at h2
  by_cases h3 : data.length ≠ 4 + data.getD 3 0 + 2
  · rw [if_pos h3]
    exact ⟨iff_of_false (by simp) (by tauto),
      iff_of_false (by simp) (by tauto),
      iff_of_true rfl ⟨h1, h2, h3⟩,
      iff_of_false (by simp) (by tauto),
      iff_of_false (by simp) (by tauto)⟩
  rw [if_neg h3]
  rw [not_ne_iff] at h3
  by_cases h4 : data.getD (4 + data.getD 3 0) 0 + 256 * data.getD (5 + data.getD 3 0) 0
      ≠ crc16_modbus ((data.drop 1).take (3 + data.getD 3 0))
  · rw [if_pos h4]
    exact ⟨iff_of_false (by simp) (by tauto),
      iff_of_false (by simp) (by tauto),
      iff_of_false (by simp) (by tauto),
      iff_of_true rfl ⟨h1, h2, h3, h4⟩,
      iff_of_false (by simp) (by tauto)⟩
  rw [if_neg h4]
  rw [not_ne_iff] at h4
  by_cases h5 : ¬ is_valid_address (data.getD 1 0) = true
  · rw [if_pos h5]
    rw [is_valid_address_iff] at h5
    exact ⟨iff_of_false (by simp) (by tauto),
      iff_of_false (by simp) (by tauto),
      iff_of_false (by simp) (by tauto),
      iff_of_false (by simp) (by tauto),
      iff_of_true rfl ⟨h1, h2, h3, h4, h5⟩⟩
  rw [if_neg h5]
  rw [not_not, is_valid_address_iff] at h5
  exact ⟨iff_of_false (by simp) (by tauto),
    iff_of_false (by simp) (by tauto),
    iff_of_false (by simp) (by tauto),
    iff_of_false (by simp) (by tauto),
    iff_of_false (by simp) (by tauto)⟩

/-! ## Claim C5 -/

/-- C5: `parse_reply` fails with BadPayloadLength exactly when the payload
length differs from 8; on every 8-byte payload it returns four samples, where
sample i is the little-endian signed 16-bit integer at bytes 2i..2i+1, absent
exactly when that integer equals 0x7FFF and present with that value
otherwise. -/
theorem parse_reply_spec (payload : List Nat) :
    (parse_reply payload = .error .badPayloadLength ↔ payload.length ≠ 8) ∧
    (payload.length = 8 →
      parse_reply payload = .ok
        [(if toInt16 (payload.getD 0 0 + 256 * payload.getD 1 0) = (0x7FFF : Int) then none
          else some (toInt16 (payload.getD 0 0 + 256 * payload.getD 1 0))),
         (if toInt16 (payload.getD 2 0 + 256 * payload.getD 3 0) = (0x7FFF : Int) then none
          else some (toInt16 (payload.getD 2 0 + 256 * payload.getD 3 0))),
         (if toInt16 (payload.getD 4 0 + 256 * payload.getD 5 0) = (0x7FFF : Int) then none
          else some (toInt16 (payload.getD 4 0 + 256 * payload.getD 5 0))),
         (if toInt16 (payload.getD 6 0 + 256 * payload.getD 7 0) = (0x7FFF : Int) then none
          else some (toInt16 (payload.getD 6 0 + 256 * payload.getD 7 0)))]) := by
  constructor
  · unfold parse_reply
    by_cases h : payload.length ≠ PROTO_REPLY_PAYLOAD_LEN
    · rw [if_pos h]
      exact iff_of_true rfl (by simpa [PROTO_REPLY_PAYLOAD_LEN] using h)
    · rw [if_neg h]
      refine iff_of_false (by simp) ?_
      simpa [PROTO_REPLY_PAYLOAD_LEN] using h
  · intro h
    unfold parse_reply
    rw [if_neg (by simp [PROTO_REPLY_PAYLOAD_LEN, h])]
    have hr : List.range 4 = [0, 1, 2, 3] := rfl
    rw [hr]
    simp only [List.map_cons, List.map_nil]
    norm_num [ite_not, PROTO_TEMP_INVALID]

/-- Witness for C5 on the demo payload. -/
theorem parse_reply_spec_witness :
    demoPayload.length = 8 ∧ parse_reply demoPayload = .ok demoTemps :=
  ⟨by decide, ((parse_reply_spec demoPayload).2 (by decide)).trans (by decide)⟩

/-! ## Poll-engine lemmas -/

/-- A frame accepted by the decoder always carries a valid address. -/
theorem decode_ok_addr_valid (data : List Nat) (f : Frame)
    (h : decode_frame data = .ok f) : is_valid_address f.addr = true := by
  unfold decode_frame at h
  by_cases h1 : data.length < 6
  · rw [if_pos h1] at h; exact absurd h (by simp)
  rw [if_neg h1] at h
  by_cases h2 : data.getD 0 0 ≠ PROTO_START
  · rw [if_pos h2] at h; exact absurd h (by simp)
  rw [if_neg h2] at h
  by_cases h3 : data.length ≠ 4 + data.getD 3 0 + 2
  · rw [if_pos h3] at h; exact absurd h (by simp)
  rw [if_neg h3] at h
  by_cases h4 : data.getD (4 + data.getD 3 0) 0 + 256 * data.getD (5 + data.getD 3 0) 0
      ≠ crc16_modbus ((data.drop 1).take (3 + data.getD 3 0))
  · rw [if_pos h4] at h; exact absurd h (by simp)
  rw [if_neg h4] at h
  by_cases h5 : ¬ is_valid_address (data.getD 1 0) = true
  · rw [if_pos h5] at h; exact absurd h (by simp)
  rw [if_neg h5] at h
  rw [not_not] at h5
  rw [Except.ok.injEq] at h
  rw [← h]
  exact h5

/-- A non-absent poll result carries the requested address, and that address
is valid. -/
theorem pollStep_some (addr : Nat) (raw : List Nat) (r : Reading)
    (h : pollStep addr raw = some r) :
    r.addr = addr ∧ is_valid_address addr = true := by
  unfold pollStep at h
  split at h
  next => exact absurd h (by simp)
  next =>
    split at h
    next => exact absurd h (by simp)
    next reply hd =>
      split at h
      next => exact absurd h (by simp)
      next ha =>
        split at h
        next => exact absurd h (by simp)
        next =>
          split at h
          next => exact absurd h (by simp)
          next =>
            split at h
            next => exact absurd h (by simp)
            next temps hpr =>
              rw [not_ne_iff] at ha
              rw [Option.some.injEq] at h
              subst h
              refine ⟨rfl, ?_⟩
              have hv := decode_ok_addr_valid raw reply hd
              rw [ha] at hv
              exact hv

/-- `poll_all` step laws. -/
theorem pollAllGo_cons_none (rx : Nat → List Nat) (a : Nat) (rest : List Nat) (k : Nat)
    (hva : is_valid_address a = true) (h : pollStep a (rx k) = none) :
    pollAllGo rx (a :: rest) k = pollAllGo rx rest (k + 1) := by
  simp only [pollAllGo, encode_frame_ok a PROTO_CMD_POLL [] hva, h]

theorem pollAllGo_cons_some (rx : Nat → List Nat) (a : Nat) (rest : List Nat) (k : Nat)
    (r : Reading) (hva : is_valid_address a = true) (h : pollStep a (rx k) = some r) :
    pollAllGo rx (a :: rest) k =
      (insertOf r :: (pollAllGo rx rest (k + 1)).1,
       (pollAllGo rx rest (k + 1)).2.map (fun rs => r :: rs)) := by
  simp only [pollAllGo, encode_frame_ok a PROTO_CMD_POLL [] hva, h]

theorem pollSuccesses_cons_none (rx : Nat → List Nat) (a : Nat) (rest : List Nat) (k : Nat)
    (h : pollStep a (rx k) = none) :
    pollSuccesses rx (a :: rest) k = pollSuccesses rx rest (k + 1) := by
  simp only [pollSuccesses, h]

theorem pollSuccesses_cons_some (rx : Nat → List Nat) (a : Nat) (rest : List Nat) (k : Nat)
    (r : Reading) (h : pollStep a (rx k) = some r) :
    pollSuccesses rx (a :: rest) k = r :: pollSuccesses rx rest (k + 1) := by
  simp only [pollSuccesses, h]

/-- Full characterisation of a cycle, for any starting poll index. -/
theorem pollAllGo_spec (rx : Nat → List Nat) :
    ∀ (clients : List Nat), (∀ a ∈ clients, is_valid_address a = true) → ∀ k,
      pollAllGo rx clients k
        = ((pollSuccesses rx clients k).map insertOf ++ [StoreEvent.commit],
           .ok (pollSuccesses rx clients k)) := by
  intro clients
  induction clients with
  | nil => intro _ k; rfl
  | cons a rest ih =>
    intro hv k
    have hva : is_valid_address a = true := hv a (List.mem_cons_self a rest)
    have hvr : ∀ b ∈ rest, is_valid_address b = true :=
      fun b hb => hv b (List.mem_cons_of_mem a hb)
    cases hps : pollStep a (rx k) with
    | none =>
      rw [pollAllGo_cons_none rx a rest k hva hps,
        pollSuccesses_cons_none rx a rest k hps]
      exact ih hvr (k + 1)
    | some r =>
      rw [pollAllGo_cons_some rx a rest k r hva hps,
        pollSuccesses_cons_some rx a rest k r hps]
      rw [ih hvr (k + 1)]
      simp
      rfl

/-! ## Claim C6 -/

/-- C6: in the canonical poll engine one cycle over valid configured addresses
inserts exactly the non-absent readings, in polled order, and calls commit
exactly once at the end of the cycle (also when no reading was obtained);
the historical `master/src/tmon/poller.py` variant, however, performs no
commit at all — at the concrete input slaves=[1] with a timing-out link its
cycle produces an empty storage trace instead of a single commit. -/
theorem poll_all_cycle (clients : List Nat) (rx : Nat → List Nat)
    (hv : ∀ a ∈ clients, is_valid_address a = true) :
    poll_all clients rx
      = ((pollSuccesses rx clients 0).map insertOf ++ [StoreEvent.commit],
         .ok (pollSuccesses rx clients 0)) ∧
    master_poll_all [1] rxEmpty = ([], .ok []) :=
  ⟨pollAllGo_spec rx clients hv 0, by decide⟩

/-- Witness for C6: two configured clients, both timing out — one commit,
zero inserts. -/
theorem poll_all_cycle_witness :
    (∀ a ∈ [1, 2], is_valid_address a = true) ∧
    (poll_all [1, 2] rxEmpty
      = ((pollSuccesses rxEmpty [1, 2] 0).map insertOf ++ [StoreEvent.commit],
         .ok (pollSuccesses rxEmpty [1, 2] 0)) ∧
     master_poll_all [1] rxEmpty = ([], .ok [])) :=
  ⟨by decide, poll_all_cycle [1, 2] rxEmpty (by decide)⟩

/-! ## Claim C7 -/

/-- C7: a received frame that decodes successfully but whose address differs
from the requested one yields an absent poll result, and a cycle consisting of
that poll inserts nothing (its storage trace is just the final commit). -/
theorem poll_addr_filtering (addr : Nat) (raw : List Nat) (f : Frame)
    (hdec : decode_frame raw = .ok f) (hne : f.addr ≠ addr)
    (hv : is_valid_address addr = true) :
    pollStep addr raw = none ∧
    poll_all [addr] (fun _ => raw) = ([StoreEvent.commit], .ok []) := by
  have hraw : raw.isEmpty = false := by
    cases raw with
    | nil => exact absurd hdec (by simp [decode_frame])
    | cons a l => rfl
  have hstep : pollStep addr raw = none := by
    unfold pollStep
    rw [if_neg (by simp [hraw])]
    simp only [hdec]
    rw [if_pos hne]
  refine ⟨hstep, ?_⟩
  show pollAllGo (fun _ => raw) [addr] 0 = _
  rw [pollAllGo_cons_none (fun _ => raw) addr [] 0 hv hstep]
  rfl

/-- Witness for C7: request address 5, link answers with the addr-3 reply. -/
theorem poll_addr_filtering_witness :
    (decode_frame demoReplyFrame = .ok ⟨3, 2, demoPayload⟩ ∧
      (Frame.mk 3 2 demoPayload).addr ≠ 5 ∧ is_valid_address 5 = true) ∧
    (pollStep 5 demoReplyFrame = none ∧
      poll_all [5] (fun _ => demoReplyFrame) = ([StoreEvent.commit], .ok [])) :=
  ⟨by decide, poll_addr_filtering 5 demoReplyFrame ⟨3, 2, demoPayload⟩
    (by decide) (by decide) (by decide)⟩

/-! ## Claim C9 -/

/-- Every insert the poll engine performs carries a valid address. -/
theorem pollAllGo_insert_valid (rx : Nat → List Nat) :
    ∀ (clients : List Nat) (k : Nat) (a : Nat) (t : List (Option Int)),
      StoreEvent.insert a t ∈ (pollAllGo rx clients k).1 →
        is_valid_address a = true := by
  intro clients
  induction clients with
  | nil =>
    intro k a t h
    simp [pollAllGo] at h
  | cons b rest ih =>
    intro k a t h
    cases he : encode_frame b PROTO_CMD_POLL [] with
    | error e =>
      rw [show pollAllGo rx (b :: rest) k = ([], .error e) from by
        simp only [pollAllGo, he]] at h
      simp at h
    | ok E =>
      cases hps : pollStep b (rx k) with
      | none =>
        rw [show pollAllGo rx (b :: rest) k = pollAllGo rx rest (k + 1) from by
          simp only [pollAllGo, he, hps]] at h
        exact ih (k + 1) a t h
      | some r =>
        rw [show pollAllGo rx (b :: rest) k
            = (insertOf r :: (pollAllGo rx rest (k + 1)).1,
               (pollAllGo rx rest (k + 1)).2.map (fun rs => r :: rs)) from by
          simp only [pollAllGo, he, hps]] at h
        rcases List.mem_cons.mp h with hhead | htail
        · have hr := pollStep_some b (rx k) r hps
          unfold insertOf at hhead
          rw [StoreEvent.insert.injEq] at hhead
          rw [hhead.1, hr.1]
          exact hr.2
        · exact ih (k + 1) a t htail

/-- Every insert the push listener performs carries a valid address. -/
theorem processFrame_insert_valid (raw : List Nat) (a : Nat) (t : List (Option Int))
    (h : StoreEvent.insert a t ∈ (processFrame raw).1) :
    is_valid_address a = true := by
  unfold processFrame at h
  split at h
  next => simp at h
  next frame hd =>
    split at h
    next => simp at h
    next hc =>
      split at h
      next => simp at h
      next hp =>
        split at h
        next => simp at h
        next temps hpr =>
          have hmem : StoreEvent.insert a t
              ∈ [StoreEvent.insert frame.addr temps, StoreEvent.commit] := h
          rcases List.mem_cons.mp hmem with h1 | h1
          · rw [StoreEvent.insert.injEq] at h1
            rw [h1.1]
            exact decode_ok_addr_valid raw frame hd
          · simp at h1

/-- C9: every row either pipeline inserts has an address in 1..247 — an insert
happens only after decode succeeded and decode enforces the range — while the
store itself performs no address validation (insert succeeds for any address
when the channel count is 4). -/
theorem stored_rows_addr_in_range :
    (∀ (clients : List Nat) (rx : Nat → List Nat) (a : Nat) (t : List (Option Int)),
      StoreEvent.insert a t ∈ (poll_all clients rx).1 → 1 ≤ a ∧ a ≤ 247) ∧
    (∀ (raw : List Nat) (a : Nat) (t : List (Option Int)),
      StoreEvent.insert a t ∈ (processFrame raw).1 → 1 ≤ a ∧ a ≤ 247) ∧
    (∀ (st : Storage) (now addr : Nat) (temps : List (Option Int)),
      temps.length = 4 → ∃ st', st.insert now addr temps = .ok st') := by
  refine ⟨?_, ?_, ?_⟩
  · intro clients rx a t h
    exact (is_valid_address_iff a).mp (pollAllGo_insert_valid rx clients 0 a t h)
  · intro raw a t h
    exact (is_valid_address_iff a).mp (processFrame_insert_valid raw a t h)
  · intro st now addr temps h4
    exact ⟨_, by unfold Storage.insert; rw [if_neg (by simp [h4])]⟩

/-- Witness for C9: the push listener's insert for the demo frame stores
address 3, which is in range. -/
theorem stored_rows_addr_in_range_witness :
    (StoreEvent.insert 3 demoTemps ∈ (processFrame demoReplyFrame).1) ∧
    (1 ≤ 3 ∧ 3 ≤ 247) :=
  ⟨by decide, stored_rows_addr_in_range.2.1 demoReplyFrame 3 demoTemps (by decide)⟩

/-! ## Claim C10 -/

/-- C10: the codec constrains neither the command byte nor the cmd/LEN
combination — encode validates only the address, and every frame it produces
decodes back to the same triple, for any cmd byte and payload length; the
rejection of non-REPLY commands and of wrong payload lengths happens in the
poll engine and the push listener. -/
theorem codec_cmd_agnostic (addr cmd : Nat) (payload : List Nat)
    (h1 : 1 ≤ addr) (h2 : addr ≤ 247) (hcmd : cmd ≤ 255)
    (hplen : payload.length ≤ 255) (hbytes : ∀ b ∈ payload, b < 256) :
    ∃ E, encode_frame addr cmd payload = .ok E ∧
      decode_frame E = .ok ⟨addr, cmd, payload⟩ ∧
      (cmd ≠ PROTO_CMD_REPLY → pollStep addr E = none ∧ processFrame E = ([], none)) ∧
      (cmd = PROTO_CMD_REPLY → payload.length ≠ PROTO_REPLY_PAYLOAD_LEN →
        pollStep addr E = none ∧ processFrame E = ([], none)) := by
  have ha : is_valid_address addr = true := (is_valid_address_iff addr).mpr ⟨h1, h2⟩
  have hd := decode_of_parts addr cmd
    (crc16_modbus (addr :: cmd :: payload.length :: payload) % 256)
    (crc16_modbus (addr :: cmd :: payload.length :: payload) / 256) payload ha
    (Nat.mod_add_div _ _)
  refine ⟨_, encode_frame_ok addr cmd payload ha, hd, ?_, ?_⟩
  · intro hne
    constructor
    · unfold pollStep
      rw [if_neg (by simp)]
      simp only [hd]
      rw [if_neg (by simp)]
      rw [if_pos hne]
    · unfold processFrame
      simp only [hd]
      rw [if_pos hne]
  · intro hcm hlen
    constructor
    · unfold pollStep
      rw [if_neg (by simp)]
      simp only [hd]
      rw [if_neg (by simp)]
      rw [if_neg (by simp [hcm])]
      rw [if_pos hlen]
    · unfold processFrame
      simp only [hd]
      rw [if_neg (by simp [hcm])]
      rw [if_pos hlen]

/-- Witness for C10: a reserved command byte 0x55 with a 3-byte payload. -/
theorem codec_cmd_agnostic_witness :
    ((1:Nat) ≤ 3 ∧ (3:Nat) ≤ 247 ∧ (0x55:Nat) ≤ 255 ∧
      ([1, 2, 3] : List Nat).length ≤ 255 ∧ (∀ b ∈ ([1, 2, 3] : List Nat), b < 256)) ∧
    (∃ E, encode_frame 3 0x55 [1, 2, 3] = .ok E ∧
      decode_frame E = .ok ⟨3, 0x55, [1, 2, 3]⟩ ∧
      ((0x55:Nat) ≠ PROTO_CMD_REPLY → pollStep 3 E = none ∧ processFrame E = ([], none)) ∧
      ((0x55:Nat) = PROTO_CMD_REPLY → ([1, 2, 3] : List Nat).length ≠ PROTO_REPLY_PAYLOAD_LEN →
        pollStep 3 E = none ∧ processFrame E = ([], none))) :=
  ⟨by decide, codec_cmd_agnostic 3 0x55 [1, 2, 3] (by decide) (by decide) (by decide)
    (by decide) (by decide)⟩

/-! ## Store lemmas -/

theorem foldr_max_range' : ∀ (k s : Nat),
    (List.range' s k).foldr max 0 = if k = 0 then 0 else s + k - 1 := by
  intro k
  induction k with
  | zero => intro s; rfl
  | succ n ih =>
    intro s
    rw [List.range'_succ s n 1]
    simp only [List.foldr_cons]
    rw [ih (s + 1)]
    by_cases hn : n = 0
    · subst hn
      simp
    · rw [if_neg hn, if_neg (Nat.succ_ne_zero n)]
      rw [Nat.max_eq_right (by omega)]
      omega

theorem insertDescById_all_lt (r : StRow) :
    ∀ l : List StRow, (∀ x ∈ l, r.id < x.id) → insertDescById r l = l ++ [r] := by
  intro l
  induction l with
  | nil => intro _; rfl
  | cons x xs ih =>
    intro h
    simp only [insertDescById]
    rw [if_neg (by have hx := h x (List.mem_cons_self x xs); omega)]
    rw [ih (fun y hy => h y (List.mem_cons_of_mem x hy))]
    rfl

theorem sortDesc_of_ascending :
    ∀ l : List StRow, List.Pairwise (fun r s => r.id < s.id) l →
      sortDescById l = l.reverse := by
  intro l
  induction l with
  | nil => intro _; rfl
  | cons x xs ih =>
    intro h
    have hx : ∀ y ∈ xs, x.id < y.id := (List.pairwise_cons.mp h).1
    have hxs := (List.pairwise_cons.mp h).2
    show insertDescById x (sortDescById xs) = (x :: xs).reverse
    rw [ih hxs,
      insertDescById_all_lt x xs.reverse (fun y hy => hx y (List.mem_reverse.mp hy)),
      List.reverse_cons]

/-- From a store whose row ids are exactly 1..k, a batch of valid inserts
succeeds and extends the ids to exactly 1..k+N, in insertion order. -/
theorem insertAll_ok :
    ∀ (inputs : List (Nat × Nat × List (Option Int))) (st : Storage) (k : Nat),
      (∀ x ∈ inputs, x.2.2.length = 4) →
      st.rows.map StRow.id = List.range' 1 k →
      ∃ st', insertAll st inputs = .ok st' ∧
        st'.rows.map StRow.id = List.range' 1 (k + inputs.length) := by
  intro inputs
  induction inputs with
  | nil =>
    intro st k _ hid
    exact ⟨st, rfl, by simpa using hid⟩
  | cons x rest ih =>
    obtain ⟨now, addr, temps⟩ := x
    intro st k hlen hid
    have ht4 : temps.length = 4 := hlen ⟨now, addr, temps⟩ (List.mem_cons_self _ _)
    have hnext : st.nextId = k + 1 := by
      unfold Storage.nextId
      rw [hid, foldr_max_range' k 1]
      by_cases hk : k = 0
      · rw [if_pos hk, hk]
      · rw [if_neg hk]; omega
    have hins : st.insert now addr temps
        = .ok ⟨st.committed, st.pending ++ [⟨k + 1, now, addr, temps⟩]⟩ := by
      unfold Storage.insert
      rw [if_neg (by simp [ht4]), hnext]
    have hrows : (Storage.mk st.committed
        (st.pending ++ [⟨k + 1, now, addr, temps⟩])).rows.map StRow.id
        = List.range' 1 (k + 1) := by
      have hconcat : List.range' 1 (k + 1) = List.range' 1 k ++ [1 + 1 * k] :=
        List.range'_concat 1 k
      have honek : 1 + 1 * k = k + 1 := by omega
      unfold Storage.rows at hid ⊢
      rw [hconcat, honek, ← hid]
      simp
    obtain ⟨st', hall, hid'⟩ := ih ⟨st.committed, st.pending ++ [⟨k + 1, now, addr, temps⟩]⟩
      (k + 1) (fun y hy => hlen y (List.mem_cons_of_mem _ hy)) hrows
    refine ⟨st', ?_, ?_⟩
    · show insertAll st ((now, addr, temps) :: rest) = .ok st'
      simp only [insertAll, hins]
      exact hall
    · have hlen2 : k + ((now, addr, temps) :: rest).length = k + 1 + rest.length := by
        simp only [List.length_cons]; omega
      rw [hlen2]
      exact hid'

/-! ## Claim C8 -/

/-- C8 (amended): after N successful inserts from an empty store followed by
one commit, fetch with a count of at least N returns exactly N rows, and
their ids in the order fetch returns them are strictly decreasing (fetch
returns newest rows first, ordered by id descending); equivalently the ids
increase strictly in insertion order. -/
theorem store_fetch_spec (inputs : List (Nat × Nat × List (Option Int))) (count : Nat)
    (hlen : ∀ x ∈ inputs, x.2.2.length = 4) (hcount : inputs.length ≤ count) :
    ∃ st', insertAll Storage.empty inputs = .ok st' ∧
      (st'.commit.fetch count).length = inputs.length ∧
      List.Pairwise (fun r s : StRow => s.id < r.id) (st'.commit.fetch count) := by
  obtain ⟨st', hall, hid⟩ := insertAll_ok inputs Storage.empty 0 hlen (by rfl)
  rw [Nat.zero_add] at hid
  have hcommit_rows : st'.commit.rows = st'.rows := by
    unfold Storage.commit Storage.rows
    simp
  have hpw : List.Pairwise (fun r s : StRow => r.id < s.id) st'.rows := by
    have h0 : List.Pairwise (· < ·) (st'.rows.map StRow.id) := by
      rw [hid]
      exact List.pairwise_lt_range' 1 inputs.length
    exact (List.pairwise_map).mp h0
  have hsort : sortDescById st'.rows = st'.rows.reverse := sortDesc_of_ascending st'.rows hpw
  have hlenrows : st'.rows.length = inputs.length := by
    have hl := congrArg List.length hid
    simpa using hl
  have hfetch : st'.commit.fetch count = st'.rows.reverse := by
    unfold Storage.fetch
    rw [hcommit_rows, hsort]
    exact List.take_of_length_le (by rw [List.length_reverse, hlenrows]; exact hcount)
  refine ⟨st', hall, ?_, ?_⟩
  · rw [hfetch, List.length_reverse, hlenrows]
  · rw [hfetch]
    exact List.pairwise_reverse.mpr hpw

/-- Counterexample to C8 as stated: two inserts then commit; fetch(10) returns
the rows with ids [2, 1] — id-descending, not strictly increasing. -/
theorem store_fetch_counterexample :
    (c8store.commit.fetch 10).map StRow.id = [2, 1] ∧
    ¬ List.Pairwise (· < ·) ((c8store.commit.fetch 10).map StRow.id) :=
  ⟨by decide, by decide⟩

/-- Witness for the amended C8 on the two concrete inserts. -/
theorem store_fetch_spec_witness :
    ((∀ x ∈ c8inputs, x.2.2.length = 4) ∧ c8inputs.length ≤ 10) ∧
    (∃ st', insertAll Storage.empty c8inputs = .ok st' ∧
      (st'.commit.fetch 10).length = c8inputs.length ∧
      List.Pairwise (fun r s : StRow => s.id < r.id) (st'.commit.fetch 10)) :=
  ⟨⟨by decide, by decide⟩, store_fetch_spec c8inputs 10 (by decide) (by decide)⟩

end Tmon
